import Mathlib

/-!
Verification of the geonames hierarchy transformer (`src/transform.js`).

The definitions below are a shallow embedding of the JavaScript source.
Strings model JavaScript strings; a JavaScript string used in a boolean
position is truthy exactly when it is non-empty, and `null` is modelled
by `Option.none`.  The admin-code lookup object `locationsByAdminCode`
is modelled as a function `String → Option String` (absent key ↦ `none`),
and the directory of node JSON files as an association list in which a
write prepends an entry, so that the first entry found for an id is the
most recent write (JavaScript overwrite semantics).
-/

namespace Geo

/-- Place record, the result of `parseGeonamesLine` (transform.js lines 144-172):
the nineteen tab-separated fields of one line of a country's data file. -/
structure GeoLocation where
  geonameid : String
  name : String
  asciiname : String
  alternatenames : String
  latitude : String
  longitude : String
  featureClass : String
  featureCode : String
  countryCode : String
  cc2 : String
  admin1Code : String
  admin2Code : String
  admin3Code : String
  admin4Code : String
  population : String
  elevation : String
  dem : String
  timezone : String
  modificationDate : String
deriving DecidableEq, Repr

/-- Country metadata record, the result of `parseCountryInfo`
(transform.js lines 56-76). -/
structure Country where
  iso : String
  iso3 : String
  isoNumeric : String
  fips : String
  name : String
  capital : String
  area : String
  population : String
  continent : String
  tld : String
  currencyCode : String
  currencyName : String
  phone : String
  postalCodeFormat : String
  postalCodeRegex : String
  languages : String
  geonameid : String
  neighbours : String
  equivalentFipsCode : String
deriving DecidableEq, Repr

/-- Helper to build a place record from the fields the core algorithm reads
(id, name, feature code, country code, admin1..admin4); the remaining
fields of the record are irrelevant to hierarchy construction and are
left empty. -/
def mkLoc (id nm fc cc a1 a2 a3 a4 : String) : GeoLocation :=
  { geonameid := id, name := nm, asciiname := "", alternatenames := ""
    latitude := "", longitude := "", featureClass := "", featureCode := fc
    countryCode := cc, cc2 := "", admin1Code := a1, admin2Code := a2
    admin3Code := a3, admin4Code := a4, population := "", elevation := ""
    dem := "", timezone := "", modificationDate := "" }

/-- The `FEATURE_LEVELS` table (transform.js lines 22-29): the six recognized
administrative feature codes and their fixed levels; `none` models
`undefined` for any other feature code. -/
def FEATURE_LEVELS : String → Option Nat := fun c =>
  if c = "PCLI" then some 0
  else if c = "ADM1" then some 1
  else if c = "ADM2" then some 2
  else if c = "ADM3" then some 3
  else if c = "ADM4" then some 4
  else if c = "ADM5" then some 5
  else none

/-- `getAdminLevel` (transform.js lines 177-190): the level classifier. -/
def getAdminLevel (loc : GeoLocation) : Nat :=
  match FEATURE_LEVELS loc.featureCode with
  | some l => l
  | none =>
    if loc.admin4Code ≠ "" then 5
    else if loc.admin3Code ≠ "" then 4
    else if loc.admin2Code ≠ "" then 3
    else if loc.admin1Code ≠ "" then 2
    else 1

/-- A record is an administrative-division record when its feature code is in
`FEATURE_LEVELS` (the JavaScript test `FEATURE_LEVELS[code] !== undefined`). -/
def isAdmDivision (loc : GeoLocation) : Bool :=
  (FEATURE_LEVELS loc.featureCode).isSome

/-- The admin-code lookup object `locationsByAdminCode`: composite key to
geonameid. -/
abbrev AdminIndex : Type := String → Option String

/-- The empty lookup object. -/
def emptyIndex : AdminIndex := fun _ => none

/-- Property assignment `locationsByAdminCode[key] = id`. -/
def insertIndex (idx : AdminIndex) (k v : String) : AdminIndex :=
  fun q => if q = k then some v else idx q

/-- The composite key with `n` admin-code segments after the country code,
as built by string interpolation in transform.js (for `n` in 1..4). -/
def chainKey (loc : GeoLocation) : Nat → String
  | 1 => loc.countryCode ++ "." ++ loc.admin1Code
  | 2 => loc.countryCode ++ "." ++ loc.admin1Code ++ "." ++ loc.admin2Code
  | 3 => loc.countryCode ++ "." ++ loc.admin1Code ++ "." ++ loc.admin2Code
         ++ "." ++ loc.admin3Code
  | 4 => loc.countryCode ++ "." ++ loc.admin1Code ++ "." ++ loc.admin2Code
         ++ "." ++ loc.admin3Code ++ "." ++ loc.admin4Code
  | _ => loc.countryCode

/-- One step of the first pass of `processCountryZip` (transform.js lines
329-345): an administrative-division record of level 1..4 whose admin-code
columns up to its level are all truthy inserts its composite key. -/
def indexStep (idx : AdminIndex) (loc : GeoLocation) : AdminIndex :=
  if isAdmDivision loc then
    if getAdminLevel loc = 1 ∧ loc.admin1Code ≠ "" then
      insertIndex idx (chainKey loc 1) loc.geonameid
    else if getAdminLevel loc = 2 ∧ loc.admin1Code ≠ "" ∧ loc.admin2Code ≠ "" then
      insertIndex idx (chainKey loc 2) loc.geonameid
    else if getAdminLevel loc = 3 ∧ loc.admin1Code ≠ "" ∧ loc.admin2Code ≠ ""
        ∧ loc.admin3Code ≠ "" then
      insertIndex idx (chainKey loc 3) loc.geonameid
    else if getAdminLevel loc = 4 ∧ loc.admin1Code ≠ "" ∧ loc.admin2Code ≠ ""
        ∧ loc.admin3Code ≠ "" ∧ loc.admin4Code ≠ "" then
      insertIndex idx (chainKey loc 4) loc.geonameid
    else idx
  else idx

/-- The admin-code index built by the first pass of `processCountryZip`,
in file order (later records overwrite earlier ones at the same key). -/
def buildIndex (rs : List GeoLocation) : AdminIndex :=
  rs.foldl indexStep emptyIndex

/-- The JavaScript read `if (locationsByAdminCode[key]) ...`: the lookup
succeeds when the key is present with a truthy (non-empty) value. -/
def idxHit (idx : AdminIndex) (k : String) : Option String :=
  match idx k with
  | some v => if v = "" then none else some v
  | none => none

/-- A guarded lookup: `if (cond && locationsByAdminCode[key]) return ...`. -/
def tryKey (idx : AdminIndex) (c : Prop) [Decidable c] (k : String) :
    Option String :=
  if c then idxHit idx k else none

/-- The first lookup of a sequence of guarded lookups that returned a value:
models a chain of early `return` statements. -/
def firstHit (l : List (Option String)) : Option String :=
  (l.filterMap id).head?

/-- `determineParent` (transform.js lines 238-283): parent resolution for an
administrative-division record.  Level 0 records get `null`; level 1
records get the country; levels 2..5 do the single guarded lookup for the
key one segment shorter than their own level, falling back to the country. -/
def determineParent (loc : GeoLocation) (countryGeonameid : String)
    (idx : AdminIndex) : Option String :=
  if getAdminLevel loc = 0 then none
  else if getAdminLevel loc = 1 then some countryGeonameid
  else
    some ((firstHit
      [tryKey idx (getAdminLevel loc = 2 ∧ loc.admin1Code ≠ "") (chainKey loc 1),
       tryKey idx (getAdminLevel loc = 3 ∧ loc.admin1Code ≠ ""
         ∧ loc.admin2Code ≠ "") (chainKey loc 2),
       tryKey idx (getAdminLevel loc = 4 ∧ loc.admin1Code ≠ ""
         ∧ loc.admin2Code ≠ "" ∧ loc.admin3Code ≠ "") (chainKey loc 3),
       tryKey idx (getAdminLevel loc = 5 ∧ loc.admin1Code ≠ ""
         ∧ loc.admin2Code ≠ "" ∧ loc.admin3Code ≠ ""
         ∧ loc.admin4Code ≠ "") (chainKey loc 4)
      ]).getD countryGeonameid)

/-- `determineParentForLocation` (transform.js lines 195-232): parent
resolution for any record.  Administrative-division records delegate to
`determineParent`; any other record tries the fully populated admin-code
chains from four segments down to one, falling back to the country. -/
def determineParentForLocation (loc : GeoLocation) (countryGeonameid : String)
    (idx : AdminIndex) : Option String :=
  if isAdmDivision loc then determineParent loc countryGeonameid idx
  else
    some ((firstHit
      [tryKey idx (loc.admin4Code ≠ "" ∧ loc.admin3Code ≠ ""
         ∧ loc.admin2Code ≠ "" ∧ loc.admin1Code ≠ "") (chainKey loc 4),
       tryKey idx (loc.admin3Code ≠ "" ∧ loc.admin2Code ≠ ""
         ∧ loc.admin1Code ≠ "") (chainKey loc 3),
       tryKey idx (loc.admin2Code ≠ "" ∧ loc.admin1Code ≠ "")
         (chainKey loc 2),
       tryKey idx (loc.admin1Code ≠ "") (chainKey loc 1)
      ]).getD countryGeonameid)

/-- A node JSON file.  Country files (transform.js lines 121-135) carry the
country attributes and no coordinates; location files (lines 365-375)
carry coordinates and no country attributes; absent fields are `none`. -/
structure Node where
  id : String
  parent : Option String
  children : List String
  name : String
  level : Nat
  iso : Option String
  iso3 : Option String
  capital : Option String
  area : Option String
  population : Option String
  continent : Option String
  languages : Option String
  latitude : Option String
  longitude : Option String
deriving DecidableEq, Repr

/-- The data directory of node JSON files, keyed by geonameid.  A write
prepends, so the first entry for an id is the latest write. -/
abbrev Store : Type := List (String × Node)

/-- Reading the node file for an id (latest write wins). -/
def storeGet (st : Store) (id : String) : Option Node :=
  match st with
  | [] => none
  | e :: t => if e.1 = id then some e.2 else storeGet t id

/-- The country node written by `createCountryFiles` (transform.js lines
120-135). -/
def countryNode (c : Country) : Node :=
  { id := c.geonameid, parent := none, children := [], name := c.name
    level := 0, iso := some c.iso, iso3 := some c.iso3
    capital := some c.capital, area := some c.area
    population := some c.population, continent := some c.continent
    languages := some c.languages, latitude := none, longitude := none }

/-- The location node written for a record by the second pass of
`processCountryZip` (transform.js lines 364-375). -/
def locationNode (loc : GeoLocation) (parent : Option String) (level : Nat) :
    Node :=
  { id := loc.geonameid, parent := parent, children := [], name := loc.name
    level := level, iso := none, iso3 := none, capital := none, area := none
    population := some loc.population, continent := none, languages := none
    latitude := some loc.latitude, longitude := some loc.longitude }

/-- The `childrenMap` object: parent id to the ordered list of child ids,
entries in first-insertion order. -/
abbrev ChildrenMap : Type := List (String × List String)

/-- `childrenMap[parent].push(id)` with creation of a missing entry
(transform.js lines 356-361). -/
def addChild (m : ChildrenMap) (p c : String) : ChildrenMap :=
  match m with
  | [] => [(p, [c])]
  | e :: t => if e.1 = p then (e.1, e.2 ++ [c]) :: t else e :: addChild t p c

/-- Reading `childrenMap[p]`, defaulting to the empty list. -/
def cmGet (m : ChildrenMap) (p : String) : List String :=
  match m with
  | [] => []
  | e :: t => if e.1 = p then e.2 else cmGet t p

/-- One step of the second pass of `processCountryZip` (transform.js lines
351-376): resolve the record's parent, append the record to its parent's
children list when the parent is truthy, and write the record's node file. -/
def secondStep (cid : String) (idx : AdminIndex)
    (acc : ChildrenMap × Store) (loc : GeoLocation) : ChildrenMap × Store :=
  (match determineParentForLocation loc cid idx with
    | some p => if p = "" then acc.1 else addChild acc.1 p loc.geonameid
    | none => acc.1,
   (loc.geonameid,
    locationNode loc (determineParentForLocation loc cid idx)
      (getAdminLevel loc)) :: acc.2)

/-- The second pass of `processCountryZip` over all records in file order. -/
def secondPass (cid : String) (idx : AdminIndex) (rs : List GeoLocation)
    (st : Store) : ChildrenMap × Store :=
  rs.foldl (secondStep cid idx) ([], st)

/-- One step of the third pass of `processCountryZip` (transform.js lines
379-387): when the parent's node file exists, rewrite it with its children
list set; otherwise do nothing. -/
def thirdStep (st : Store) (e : String × List String) : Store :=
  match storeGet st e.1 with
  | some n => (e.1, { n with children := e.2 }) :: st
  | none => st

/-- The third pass of `processCountryZip`: write every aggregated children
list into the corresponding node file. -/
def thirdPass (cm : ChildrenMap) (st : Store) : Store :=
  cm.foldl thirdStep st

/-- The per-country core of `processCountryZip` (transform.js lines 316-387):
build the admin-code index from the records, create all location nodes
while aggregating children, then attach the children lists. -/
def processCountry (cid : String) (rs : List GeoLocation) (st : Store) :
    Store :=
  let idx := buildIndex rs
  let pr := secondPass cid idx rs st
  thirdPass pr.1 pr.2

/-- A member entry of a country's zip archive. -/
structure ZipEntry where
  entryName : String
  isDirectory : Bool
deriving DecidableEq, Repr

/-- Character-list check that `l` starts with `p`. -/
def startsWithL : List Char → List Char → Bool
  | _, [] => true
  | [], _ :: _ => false
  | c :: cs, p :: ps => c = p && startsWithL cs ps

/-- JavaScript `String.prototype.endsWith`. -/
def strEndsWith (s suf : String) : Bool :=
  startsWithL s.data.reverse suf.data.reverse

/-- Character-list substring check. -/
def containsL : List Char → List Char → Bool
  | [], p => p.isEmpty
  | s :: t, p => startsWithL (s :: t) p || containsL t p

/-- JavaScript `String.prototype.includes`. -/
def strIncludes (s pat : String) : Bool :=
  containsL s.data pat.data

/-- The predicate of the `zipEntries.find` call in `processCountryZip`
(transform.js lines 303-306). -/
def dataEntryMatch (iso : String) (e : ZipEntry) : Bool :=
  e.entryName = iso ++ ".txt"
    || (strEndsWith e.entryName ".txt" && !strIncludes e.entryName "readme"
        && !e.isDirectory)

/-- The archive entry consumed as the data file: the first entry of the
archive matching the predicate (JavaScript `Array.prototype.find`). -/
def findDataEntry (iso : String) (entries : List ZipEntry) : Option ZipEntry :=
  entries.find? (dataEntryMatch iso)

/-- A string is dot-free when it does not contain the `.` separator used to
join composite keys. -/
def dotFreeB (s : String) : Bool := decide ('.' ∉ s.data)

/-- All fields of a record that can enter a composite key are dot-free. -/
def locDotFree (loc : GeoLocation) : Bool :=
  dotFreeB loc.countryCode && dotFreeB loc.admin1Code
    && dotFreeB loc.admin2Code && dotFreeB loc.admin3Code
    && dotFreeB loc.admin4Code

/-- Join a list of strings with the `.` separator. -/
def joinDots : List String → String
  | [] => ""
  | [s] => s
  | s :: t => s ++ "." ++ joinDots t

/-- The segment list of the composite key with `n` admin-code segments. -/
def chainSegs (loc : GeoLocation) : Nat → List String
  | 1 => [loc.countryCode, loc.admin1Code]
  | 2 => [loc.countryCode, loc.admin1Code, loc.admin2Code]
  | 3 => [loc.countryCode, loc.admin1Code, loc.admin2Code, loc.admin3Code]
  | 4 => [loc.countryCode, loc.admin1Code, loc.admin2Code, loc.admin3Code,
          loc.admin4Code]
  | _ => [loc.countryCode]

theorem joinDots_cons (s a : String) (t : List String) :
    joinDots (s :: a :: t) = s ++ "." ++ joinDots (a :: t) := rfl

theorem joinDots_data_cons (s a : String) (t : List String) :
    (joinDots (s :: a :: t)).data = s.data ++ '.' :: (joinDots (a :: t)).data := by
  rw [joinDots_cons, String.data_append, String.data_append]
  simp

theorem chainKey_eq_joinDots (loc : GeoLocation) (n : Nat) :
    chainKey loc n = joinDots (chainSegs loc n) := by
  apply String.ext
  rcases n with _ | _ | _ | _ | _ | n <;>
    simp [chainKey, chainSegs, joinDots, String.data_append]

theorem chainSegs_length (loc : GeoLocation) (n : Nat) (h1 : 1 ≤ n)
    (h4 : n ≤ 4) : (chainSegs loc n).length = n + 1 := by
  interval_cases n <;> rfl

theorem chainSegs_dotFree (loc : GeoLocation) (n : Nat)
    (h : locDotFree loc = true) : ∀ s ∈ chainSegs loc n, dotFreeB s = true := by
  simp only [locDotFree, Bool.and_eq_true] at h
  rcases n with _ | _ | _ | _ | _ | n <;> simp [chainSegs] <;> tauto

theorem dot_mem_of_not_dotFree {s : String} (h : dotFreeB s = true) :
    '.' ∉ s.data := of_decide_eq_true h

/-- Splitting at the first separator is unique when the leading segments are
dot-free. -/
theorem dot_split_unique : ∀ (a b u v : List Char), '.' ∉ a → '.' ∉ b →
    a ++ '.' :: u = b ++ '.' :: v → a = b ∧ u = v := by
  intro a
  induction a with
  | nil =>
    intro b u v _ hb h
    cases b with
    | nil => simpa using h
    | cons d ds =>
      simp only [List.nil_append, List.cons_append, List.cons.injEq] at h
      exact (hb (by rw [h.1]; exact List.mem_cons_self d ds)).elim
  | cons c cs ih =>
    intro b u v ha hb h
    cases b with
    | nil =>
      simp only [List.nil_append, List.cons_append, List.cons.injEq] at h
      exact (ha (by rw [← h.1]; exact List.mem_cons_self c cs)).elim
    | cons d ds =>
      simp only [List.cons_append, List.cons.injEq] at h
      obtain ⟨rfl, h2⟩ := h
      have := ih ds u v (fun hm => ha (List.mem_cons_of_mem _ hm))
        (fun hm => hb (List.mem_cons_of_mem _ hm)) h2
      exact ⟨by rw [this.1], this.2⟩

/-- Joining dot-free segments with the separator is injective on non-empty
segment lists. -/
theorem joinDots_inj : ∀ (l₁ l₂ : List String),
    (∀ s ∈ l₁, dotFreeB s = true) → (∀ s ∈ l₂, dotFreeB s = true) →
    l₁ ≠ [] → l₂ ≠ [] → joinDots l₁ = joinDots l₂ → l₁ = l₂ := by
  intro l₁
  induction l₁ with
  | nil => intro l₂ _ _ hne; exact absurd rfl hne
  | cons s₁ t₁ ih =>
    intro l₂ h₁ h₂ _ hne₂ hj
    cases l₂ with
    | nil => exact absurd rfl hne₂
    | cons s₂ t₂ =>
      cases t₁ with
      | nil =>
        cases t₂ with
        | nil => simpa [joinDots] using hj
        | cons a₂ r₂ =>
          exfalso
          have hd : (joinDots [s₁]).data = (joinDots (s₂ :: a₂ :: r₂)).data :=
            congrArg String.data hj
          rw [joinDots_data_cons] at hd
          have : '.' ∈ (joinDots [s₁]).data := by
            rw [hd]; exact List.mem_append_right _ (List.mem_cons_self _ _)
          exact dot_mem_of_not_dotFree (h₁ s₁ (by simp)) (by simpa [joinDots] using this)
      | cons a₁ r₁ =>
        cases t₂ with
        | nil =>
          exfalso
          have hd : (joinDots (s₁ :: a₁ :: r₁)).data = (joinDots [s₂]).data :=
            congrArg String.data hj
          rw [joinDots_data_cons] at hd
          have : '.' ∈ (joinDots [s₂]).data := by
            rw [← hd]; exact List.mem_append_right _ (List.mem_cons_self _ _)
          exact dot_mem_of_not_dotFree (h₂ s₂ (by simp)) (by simpa [joinDots] using this)
        | cons a₂ r₂ =>
          have hd : (joinDots (s₁ :: a₁ :: r₁)).data
              = (joinDots (s₂ :: a₂ :: r₂)).data := congrArg String.data hj
          rw [joinDots_data_cons, joinDots_data_cons] at hd
          have hsp := dot_split_unique s₁.data s₂.data _ _
            (dot_mem_of_not_dotFree (h₁ s₁ (by simp)))
            (dot_mem_of_not_dotFree (h₂ s₂ (by simp))) hd
          have hs : s₁ = s₂ := String.ext hsp.1
          have ht : a₁ :: r₁ = a₂ :: r₂ := by
            apply ih (a₂ :: r₂)
              (fun s hs => h₁ s (List.mem_cons_of_mem _ hs))
              (fun s hs => h₂ s (List.mem_cons_of_mem _ hs))
              (by simp) (by simp)
            exact String.ext hsp.2
          rw [hs, ht]

/-- The admin-code columns of a record up to segment `n` are all truthy. -/
def chainPopulated (loc : GeoLocation) : Nat → Bool
  | 1 => decide (loc.admin1Code ≠ "")
  | 2 => decide (loc.admin1Code ≠ "" ∧ loc.admin2Code ≠ "")
  | 3 => decide (loc.admin1Code ≠ "" ∧ loc.admin2Code ≠ ""
         ∧ loc.admin3Code ≠ "")
  | 4 => decide (loc.admin1Code ≠ "" ∧ loc.admin2Code ≠ ""
         ∧ loc.admin3Code ≠ "" ∧ loc.admin4Code ≠ "")
  | _ => false

theorem featureLevel_le_five {c : String} {l : Nat}
    (h : FEATURE_LEVELS c = some l) : l ≤ 5 := by
  unfold FEATURE_LEVELS at h
  split_ifs at h <;> simp_all <;> omega

theorem getAdminLevel_of_feature {loc : GeoLocation} {l : Nat}
    (h : FEATURE_LEVELS loc.featureCode = some l) : getAdminLevel loc = l := by
  unfold getAdminLevel
  rw [h]

theorem isAdmDivision_exists {loc : GeoLocation}
    (h : isAdmDivision loc = true) :
    ∃ l, FEATURE_LEVELS loc.featureCode = some l := by
  unfold isAdmDivision at h
  exact Option.isSome_iff_exists.mp h

theorem getAdminLevel_le_five_of_adm {loc : GeoLocation}
    (h : isAdmDivision loc = true) : getAdminLevel loc ≤ 5 := by
  obtain ⟨l, hl⟩ := isAdmDivision_exists h
  rw [getAdminLevel_of_feature hl]
  exact featureLevel_le_five hl

theorem firstHit_nil : firstHit [] = none := rfl

theorem firstHit_none_cons (l : List (Option String)) :
    firstHit (none :: l) = firstHit l := rfl

theorem firstHit_some_cons (v : String) (l : List (Option String)) :
    firstHit (some v :: l) = some v := rfl

theorem chainSegs_ne_nil (loc : GeoLocation) (n : Nat) :
    chainSegs loc n ≠ [] := by
  rcases n with _ | _ | _ | _ | _ | n <;> simp [chainSegs]

/-- Every entry of the built index was inserted by the last administrative
division of level 1..4, with populated columns, that owns its key. -/
theorem foldIndex_spec : ∀ (rs : List GeoLocation) (idx : AdminIndex)
    (k v : String), (rs.foldl indexStep idx) k = some v →
    idx k = some v ∨ ∃ r ∈ rs, isAdmDivision r = true
      ∧ 1 ≤ getAdminLevel r ∧ getAdminLevel r ≤ 4
      ∧ chainPopulated r (getAdminLevel r) = true
      ∧ k = chainKey r (getAdminLevel r) ∧ v = r.geonameid := by
  intro rs
  induction rs with
  | nil => intro idx k v h; exact Or.inl h
  | cons r t ih =>
    intro idx k v h
    rcases ih (indexStep idx r) k v h with hbase | ⟨r', hr', hprops⟩
    · unfold indexStep at hbase
      split_ifs at hbase with hadm h1 h2 h3 h4
      · unfold insertIndex at hbase
        split_ifs at hbase with hk
        · exact Or.inr ⟨r, List.mem_cons_self _ _, hadm, by omega, by omega,
            by simp [h1.1, chainPopulated]; exact h1.2,
            by rw [hk, h1.1], (Option.some.inj hbase).symm⟩
        · exact Or.inl hbase
      · unfold insertIndex at hbase
        split_ifs at hbase with hk
        · exact Or.inr ⟨r, List.mem_cons_self _ _, hadm, by omega, by omega,
            by simp [h2.1, chainPopulated]; exact ⟨h2.2.1, h2.2.2⟩,
            by rw [hk, h2.1], (Option.some.inj hbase).symm⟩
        · exact Or.inl hbase
      · unfold insertIndex at hbase
        split_ifs at hbase with hk
        · exact Or.inr ⟨r, List.mem_cons_self _ _, hadm, by omega, by omega,
            by simp [h3.1, chainPopulated]; exact ⟨h3.2.1, h3.2.2.1, h3.2.2.2⟩,
            by rw [hk, h3.1], (Option.some.inj hbase).symm⟩
        · exact Or.inl hbase
      · unfold insertIndex at hbase
        split_ifs at hbase with hk
        · exact Or.inr ⟨r, List.mem_cons_self _ _, hadm, by omega, by omega,
            by simp [h4.1, chainPopulated]
               exact ⟨h4.2.1, h4.2.2.1, h4.2.2.2.1, h4.2.2.2.2⟩,
            by rw [hk, h4.1], (Option.some.inj hbase).symm⟩
        · exact Or.inl hbase
      · exact Or.inl hbase
      · exact Or.inl hbase
    · exact Or.inr ⟨r', List.mem_cons_of_mem _ hr', hprops⟩

theorem buildIndex_spec (rs : List GeoLocation) (k v : String)
    (h : buildIndex rs k = some v) :
    ∃ r ∈ rs, isAdmDivision r = true
      ∧ 1 ≤ getAdminLevel r ∧ getAdminLevel r ≤ 4
      ∧ chainPopulated r (getAdminLevel r) = true
      ∧ k = chainKey r (getAdminLevel r) ∧ v = r.geonameid := by
  rcases foldIndex_spec rs emptyIndex k v h with hbase | hgood
  · exact absurd hbase (by simp [emptyIndex])
  · exact hgood

/-- Under dot-free codes, a hit of the index at the key with `m` admin-code
segments can only come from a division of level exactly `m`. -/
theorem buildIndex_hit_level (rs : List GeoLocation) (loc : GeoLocation)
    (m : Nat) (p : String) (hdf : ∀ r ∈ rs, locDotFree r = true)
    (hldf : locDotFree loc = true) (h1 : 1 ≤ m) (h4 : m ≤ 4)
    (h : buildIndex rs (chainKey loc m) = some p) :
    ∃ r ∈ rs, isAdmDivision r = true ∧ getAdminLevel r = m
      ∧ p = r.geonameid := by
  obtain ⟨r, hr, hadm, hge, hle, _, hkey, hv⟩ := buildIndex_spec rs _ p h
  rw [chainKey_eq_joinDots, chainKey_eq_joinDots] at hkey
  have hsegs := joinDots_inj _ _ (chainSegs_dotFree loc m hldf)
    (chainSegs_dotFree r _ (hdf r hr)) (chainSegs_ne_nil loc m)
    (chainSegs_ne_nil r _) hkey
  have hlen := congrArg List.length hsegs
  rw [chainSegs_length loc m h1 h4, chainSegs_length r _ hge hle] at hlen
  exact ⟨r, hr, hadm, by omega, hv⟩

theorem firstHit_pad1 (e : Option String) :
    firstHit [e, none, none, none] = e := by cases e <;> rfl

theorem firstHit_pad2 (e : Option String) :
    firstHit [none, e, none, none] = e := by cases e <;> rfl

theorem firstHit_pad3 (e : Option String) :
    firstHit [none, none, e, none] = e := by cases e <;> rfl

theorem firstHit_pad4 (e : Option String) :
    firstHit [none, none, none, e] = e := by cases e <;> rfl

/-- For a record of level 2..5, `determineParent` reduces to the single
guarded lookup on the key with level-minus-one admin segments, with the
country as fallback. -/
theorem determineParent_char (loc : GeoLocation) (cid : String)
    (idx : AdminIndex) (l : Nat) (hl : getAdminLevel loc = l) (h2 : 2 ≤ l)
    (h5 : l ≤ 5) :
    determineParent loc cid idx
      = some ((tryKey idx (chainPopulated loc (l - 1) = true)
          (chainKey loc (l - 1))).getD cid) := by
  unfold determineParent
  rw [hl]
  interval_cases l <;>
    simp [tryKey, chainPopulated, firstHit_pad1, firstHit_pad2,
      firstHit_pad3, firstHit_pad4]

/-- When every value stored in the index is truthy, the JavaScript truthy
read agrees with plain presence. -/
theorem idxHit_eq_of_truthy (idx : AdminIndex)
    (hv : ∀ k v, idx k = some v → v ≠ "") (k : String) :
    idxHit idx k = idx k := by
  cases h : idx k with
  | none => simp [idxHit, h]
  | some v => simp [idxHit, h, hv k v h]

/-- The ordinary-record resolution rule as the specification words it: try
the populated admin-code chains from four segments down to one and return
the value of the first key present in the index, defaulting to the
country id. -/
def resolveOrdinarySpec (loc : GeoLocation) (cid : String)
    (idx : AdminIndex) : String :=
  (firstHit
    [if chainPopulated loc 4 = true then idx (chainKey loc 4) else none,
     if chainPopulated loc 3 = true then idx (chainKey loc 3) else none,
     if chainPopulated loc 2 = true then idx (chainKey loc 2) else none,
     if chainPopulated loc 1 = true then idx (chainKey loc 1) else none
    ]).getD cid

/-- On indexes with truthy values, the code's ordinary-record resolution
equals the specification's first-populated-chain rule. -/
theorem resolveOrdinary_eq_spec (loc : GeoLocation) (cid : String)
    (idx : AdminIndex) (hv : ∀ k v, idx k = some v → v ≠ "")
    (hna : isAdmDivision loc = false) :
    determineParentForLocation loc cid idx
      = some (resolveOrdinarySpec loc cid idx) := by
  have hidx := idxHit_eq_of_truthy idx hv
  by_cases ha1 : loc.admin1Code = "" <;> by_cases ha2 : loc.admin2Code = "" <;>
    by_cases ha3 : loc.admin3Code = "" <;> by_cases ha4 : loc.admin4Code = "" <;>
    simp [determineParentForLocation, hna, resolveOrdinarySpec, tryKey,
      chainPopulated, hidx, ha1, ha2, ha3, ha4]

theorem idxHit_some {idx : AdminIndex} {k p : String}
    (h : idxHit idx k = some p) : idx k = some p ∧ p ≠ "" := by
  unfold idxHit at h
  split at h
  · rename_i v heq
    split_ifs at h with hv
    have hvp := Option.some.inj h
    subst hvp
    exact ⟨heq, hv⟩
  · exact absurd h (by simp)

theorem firstHit_mem {l : List (Option String)} {q : String}
    (h : firstHit l = some q) : some q ∈ l := by
  unfold firstHit at h
  have hq : q ∈ l.filterMap id := by
    cases hl : l.filterMap id with
    | nil => rw [hl] at h; exact absurd h (by simp)
    | cons a t =>
      rw [hl] at h
      simp only [List.head?_cons, Option.some.injEq] at h
      rw [← h]
      exact List.mem_cons_self _ _
  obtain ⟨o, ho, hoq⟩ := List.mem_filterMap.mp hq
  have hoq' : o = some q := hoq
  rwa [hoq'] at ho


/-- An administrative record of level 2..5 that resolves away from the
country did so through the truthy lookup on its own level's key. -/
theorem determineParent_hit (loc : GeoLocation) (cid : String)
    (idx : AdminIndex) (p : String) (l : Nat) (hl : getAdminLevel loc = l)
    (h2 : 2 ≤ l) (h5 : l ≤ 5) (h : determineParent loc cid idx = some p)
    (hp : p ≠ cid) :
    chainPopulated loc (l - 1) = true
      ∧ idxHit idx (chainKey loc (l - 1)) = some p := by
  rw [determineParent_char loc cid idx l hl h2 h5] at h
  have h' := Option.some.inj h
  unfold tryKey at h'
  split_ifs at h' with hg
  · cases hi : idxHit idx (chainKey loc (l - 1)) with
    | none => rw [hi] at h'; exact absurd h'.symm hp
    | some q =>
      rw [hi] at h'
      simp only [Option.getD_some] at h'
      exact ⟨hg, by rw [h']⟩
  · exact absurd h'.symm hp

theorem not_adm_feature_none {loc : GeoLocation}
    (hna : isAdmDivision loc = false) :
    FEATURE_LEVELS loc.featureCode = none := by
  unfold isAdmDivision at hna
  exact Option.not_isSome_iff_eq_none.mp (by simp [hna])

/-- For an ordinary record, a populated chain of `m` segments forces the
classified level strictly above `m`. -/
theorem ordinary_level_gt (loc : GeoLocation)
    (hna : isAdmDivision loc = false) (m : Nat) (h1 : 1 ≤ m) (h4 : m ≤ 4)
    (hpop : chainPopulated loc m = true) : m + 1 ≤ getAdminLevel loc := by
  have hfc := not_adm_feature_none hna
  unfold getAdminLevel
  rw [hfc]
  interval_cases m <;>
    simp only [chainPopulated, decide_eq_true_eq] at hpop <;>
    split_ifs <;> first | omega | tauto

/-- An ordinary record that resolves away from the country did so through a
truthy lookup on one of its populated chains of 1..4 segments. -/
theorem resolveOrdinary_hit (loc : GeoLocation) (cid : String)
    (idx : AdminIndex) (p : String) (hna : isAdmDivision loc = false)
    (h : determineParentForLocation loc cid idx = some p) (hp : p ≠ cid) :
    ∃ m, 1 ≤ m ∧ m ≤ 4 ∧ chainPopulated loc m = true
      ∧ idxHit idx (chainKey loc m) = some p := by
  unfold determineParentForLocation at h
  rw [if_neg (by simp [hna])] at h
  have h' := Option.some.inj h
  cases hfh : firstHit
      [tryKey idx (loc.admin4Code ≠ "" ∧ loc.admin3Code ≠ ""
         ∧ loc.admin2Code ≠ "" ∧ loc.admin1Code ≠ "") (chainKey loc 4),
       tryKey idx (loc.admin3Code ≠ "" ∧ loc.admin2Code ≠ ""
         ∧ loc.admin1Code ≠ "") (chainKey loc 3),
       tryKey idx (loc.admin2Code ≠ "" ∧ loc.admin1Code ≠ "")
         (chainKey loc 2),
       tryKey idx (loc.admin1Code ≠ "") (chainKey loc 1)] with
  | none => rw [hfh] at h'; exact absurd h'.symm hp
  | some q =>
    rw [hfh] at h'
    simp only [Option.getD_some] at h'
    subst h'
    have hmem := firstHit_mem hfh
    simp only [List.mem_cons, List.not_mem_nil, or_false] at hmem
    rcases hmem with h4 | h3 | h2 | h1
    · unfold tryKey at h4
      split_ifs at h4 with hg
      exact ⟨4, by omega, by omega,
        by simp [chainPopulated]; tauto, h4.symm⟩
    · unfold tryKey at h3
      split_ifs at h3 with hg
      exact ⟨3, by omega, by omega,
        by simp [chainPopulated]; tauto, h3.symm⟩
    · unfold tryKey at h2
      split_ifs at h2 with hg
      exact ⟨2, by omega, by omega,
        by simp [chainPopulated]; tauto, h2.symm⟩
    · unfold tryKey at h1
      split_ifs at h1 with hg
      exact ⟨1, by omega, by omega,
        by simp [chainPopulated]; tauto, h1.symm⟩

/-- The resolved parent of a record when it is truthy (non-null, non-empty),
the condition under which the second pass records the child link. -/
def truthyParent (cid : String) (idx : AdminIndex) (loc : GeoLocation) :
    Option String :=
  match determineParentForLocation loc cid idx with
  | some p => if p = "" then none else some p
  | none => none

/-- The ids of the records whose truthy resolved parent is `p`, in file
order, duplicates preserved. -/
def childIds (cid : String) (idx : AdminIndex) (rs : List GeoLocation)
    (p : String) : List String :=
  (rs.filter (fun loc => truthyParent cid idx loc = some p)).map
    (fun loc => loc.geonameid)

theorem cmGet_nil (p : String) : cmGet [] p = [] := rfl

theorem addChild_get_eq : ∀ (m : ChildrenMap) (p c : String),
    cmGet (addChild m p c) p = cmGet m p ++ [c] := by
  intro m p c
  induction m with
  | nil => simp [addChild, cmGet]
  | cons e t ih =>
    unfold addChild
    split_ifs with he
    · simp [cmGet, he]
    · simp [cmGet, he, ih]

theorem addChild_get_ne : ∀ (m : ChildrenMap) (p c q : String), q ≠ p →
    cmGet (addChild m p c) q = cmGet m q := by
  intro m p c q hq
  induction m with
  | nil => simp [addChild, cmGet, Ne.symm hq]
  | cons e t ih =>
    unfold addChild
    split_ifs with he
    · have hne : e.1 ≠ q := by rw [he]; exact Ne.symm hq
      simp [cmGet, hne]
    · by_cases heq : e.1 = q
      · simp [cmGet, heq]
      · simp [cmGet, heq, ih]

theorem addChild_keys (m : ChildrenMap) (p c : String) :
    (addChild m p c).map Prod.fst
      = if p ∈ m.map Prod.fst then m.map Prod.fst
        else m.map Prod.fst ++ [p] := by
  induction m with
  | nil => simp [addChild]
  | cons e t ih =>
    by_cases he : e.1 = p
    · rw [show addChild (e :: t) p c = (e.1, e.2 ++ [c]) :: t from by
        unfold addChild; rw [if_pos he]]
      rw [if_pos (show p ∈ (e :: t).map Prod.fst by simp [← he])]
      simp
    · rw [show addChild (e :: t) p c = e :: addChild t p c from by
        unfold addChild; rw [if_neg he]; cases t <;> rfl]
      have hpe : p ≠ e.1 := fun h => he h.symm
      by_cases hp : p ∈ t.map Prod.fst
      · rw [if_pos (show p ∈ (e :: t).map Prod.fst by simp [hp])]
        simp [ih, hp]
      · rw [if_neg (show p ∉ (e :: t).map Prod.fst by simp [hpe, hp])]
        simp [ih, hp]

theorem addChild_nodup (m : ChildrenMap) (p c : String)
    (h : (m.map Prod.fst).Nodup) :
    ((addChild m p c).map Prod.fst).Nodup := by
  rw [addChild_keys]
  split_ifs with hp
  · exact h
  · simp [List.nodup_append, h, hp]

theorem cmGet_mem : ∀ (m : ChildrenMap) (p : String), cmGet m p ≠ [] →
    (p, cmGet m p) ∈ m := by
  intro m p
  induction m with
  | nil => intro h; exact absurd rfl h
  | cons e t ih =>
    intro h
    unfold cmGet at h ⊢
    split_ifs at h ⊢ with he
    · rw [← he]
      exact List.mem_cons_self _ _
    · exact List.mem_cons_of_mem _ (ih h)

/-- The last record in the list carrying a given geonameid, as overwritten
by repeated `put` writes. -/
def findLastRec (rs : List GeoLocation) (id : String) : Option GeoLocation :=
  rs.foldl (fun acc r => if r.geonameid = id then some r else acc) none

theorem findLast_aux (id : String) : ∀ (rs : List GeoLocation)
    (a : Option GeoLocation),
    rs.foldl (fun acc r => if r.geonameid = id then some r else acc) a
      = match findLastRec rs id with
        | some l => some l
        | none => a := by
  intro rs
  induction rs with
  | nil => intro a; rfl
  | cons s u ih =>
    intro a
    show u.foldl _ (if s.geonameid = id then some s else a) = _
    rw [ih]
    have hru : findLastRec (s :: u) id
        = u.foldl (fun acc r => if r.geonameid = id then some r else acc)
          (if s.geonameid = id then some s else none) := rfl
    rw [hru, ih]
    cases findLastRec u id with
    | some l => rfl
    | none => split_ifs <;> rfl

theorem findLast_cons (s : GeoLocation) (u : List GeoLocation) (id : String) :
    findLastRec (s :: u) id
      = match findLastRec u id with
        | some l => some l
        | none => if s.geonameid = id then some s else none := by
  show u.foldl _ (if s.geonameid = id then some s else none) = _
  rw [findLast_aux]

theorem findLast_none (rs : List GeoLocation) (id : String)
    (h : ∀ r ∈ rs, r.geonameid ≠ id) : findLastRec rs id = none := by
  induction rs with
  | nil => rfl
  | cons s u ih =>
    rw [findLast_cons, ih (fun r hr => h r (List.mem_cons_of_mem _ hr))]
    simp [h s (List.mem_cons_self _ _)]

theorem findLast_of_nodup (rs : List GeoLocation) (loc : GeoLocation)
    (hnd : (rs.map (fun r => r.geonameid)).Nodup) (hmem : loc ∈ rs) :
    findLastRec rs loc.geonameid = some loc := by
  induction rs with
  | nil => exact absurd hmem (List.not_mem_nil loc)
  | cons s u ih =>
    rw [findLast_cons]
    rcases List.mem_cons.mp hmem with rfl | hu
    · have hnot : ∀ r ∈ u, r.geonameid ≠ loc.geonameid := by
        intro r hr
        simp only [List.map_cons, List.nodup_cons, List.mem_map] at hnd
        exact fun hrg => hnd.1 ⟨r, hr, hrg⟩
      rw [findLast_none u _ hnot]
      simp
    · rw [ih (by simp only [List.map_cons, List.nodup_cons] at hnd; exact hnd.2) hu]

theorem storeGet_cons (e : String × Node) (st : Store) (id : String) :
    storeGet (e :: st) id = if e.1 = id then some e.2 else storeGet st id := rfl

theorem secondStep_cm (cid : String) (idx : AdminIndex) (cm : ChildrenMap)
    (st : Store) (loc : GeoLocation) :
    (secondStep cid idx (cm, st) loc).1
      = match truthyParent cid idx loc with
        | some q => addChild cm q loc.geonameid
        | none => cm := by
  unfold secondStep truthyParent
  cases determineParentForLocation loc cid idx with
  | none => rfl
  | some q => by_cases hq : q = "" <;> simp [hq]

theorem secondStep_store (cid : String) (idx : AdminIndex) (cm : ChildrenMap)
    (st : Store) (loc : GeoLocation) :
    (secondStep cid idx (cm, st) loc).2
      = (loc.geonameid,
         locationNode loc (determineParentForLocation loc cid idx)
           (getAdminLevel loc)) :: st := rfl

theorem childIds_cons (cid : String) (idx : AdminIndex) (loc : GeoLocation)
    (t : List GeoLocation) (p : String) :
    childIds cid idx (loc :: t) p
      = if truthyParent cid idx loc = some p
        then loc.geonameid :: childIds cid idx t p
        else childIds cid idx t p := by
  unfold childIds
  rw [List.filter_cons]
  by_cases h : truthyParent cid idx loc = some p <;> simp [h]

theorem secondPass_cm_get (cid : String) (idx : AdminIndex) :
    ∀ (rs : List GeoLocation) (cm₀ : ChildrenMap) (st₀ : Store) (p : String),
    cmGet (rs.foldl (secondStep cid idx) (cm₀, st₀)).1 p
      = cmGet cm₀ p ++ childIds cid idx rs p := by
  intro rs
  induction rs with
  | nil => intro cm₀ st₀ p; simp [childIds]
  | cons loc t ih =>
    intro cm₀ st₀ p
    show cmGet (t.foldl _ (secondStep cid idx (cm₀, st₀) loc)).1 p = _
    have hx := ih (secondStep cid idx (cm₀, st₀) loc).1
      (secondStep cid idx (cm₀, st₀) loc).2 p
    rw [Prod.mk.eta] at hx
    rw [hx, childIds_cons, secondStep_cm]
    cases hq : truthyParent cid idx loc with
    | none => simp
    | some q =>
      by_cases hqp : q = p
      · subst hqp
        simp [addChild_get_eq]
      · rw [if_neg (by simp [hqp])]
        rw [addChild_get_ne cm₀ q loc.geonameid p (fun h => hqp h.symm)]

theorem secondPass_cm_nodup (cid : String) (idx : AdminIndex) :
    ∀ (rs : List GeoLocation) (cm₀ : ChildrenMap) (st₀ : Store),
    (cm₀.map Prod.fst).Nodup →
    (((rs.foldl (secondStep cid idx) (cm₀, st₀)).1).map Prod.fst).Nodup := by
  intro rs
  induction rs with
  | nil => intro cm₀ st₀ h; exact h
  | cons loc t ih =>
    intro cm₀ st₀ h
    show (((t.foldl _ (secondStep cid idx (cm₀, st₀) loc)).1).map Prod.fst).Nodup
    have hx := ih (secondStep cid idx (cm₀, st₀) loc).1
      (secondStep cid idx (cm₀, st₀) loc).2
    rw [Prod.mk.eta] at hx
    apply hx
    rw [secondStep_cm]
    cases truthyParent cid idx loc with
    | none => exact h
    | some q => exact addChild_nodup cm₀ q loc.geonameid h

theorem secondPass_store_get (cid : String) (idx : AdminIndex) :
    ∀ (rs : List GeoLocation) (cm₀ : ChildrenMap) (st₀ : Store) (id : String),
    storeGet (rs.foldl (secondStep cid idx) (cm₀, st₀)).2 id
      = match findLastRec rs id with
        | some loc => some (locationNode loc
            (determineParentForLocation loc cid idx) (getAdminLevel loc))
        | none => storeGet st₀ id := by
  intro rs
  induction rs with
  | nil => intro cm₀ st₀ id; rfl
  | cons loc t ih =>
    intro cm₀ st₀ id
    show storeGet (t.foldl _ (secondStep cid idx (cm₀, st₀) loc)).2 id = _
    have hx := ih (secondStep cid idx (cm₀, st₀) loc).1
      (secondStep cid idx (cm₀, st₀) loc).2 id
    rw [Prod.mk.eta] at hx
    rw [hx, findLast_cons, secondStep_store]
    cases findLastRec t id with
    | some l => rfl
    | none => by_cases hg : loc.geonameid = id <;> simp [storeGet_cons, hg]

/-- The part of a node unchanged by the children-attachment pass. -/
def nodeCore (n : Node) : Node := { n with children := [] }

theorem thirdStep_get_other (st : Store) (e : String × List String)
    (id : String) (h : e.1 ≠ id) :
    storeGet (thirdStep st e) id = storeGet st id := by
  unfold thirdStep
  cases storeGet st e.1 with
  | none => rfl
  | some n => simp [storeGet_cons, h]

theorem thirdStep_core (st : Store) (e : String × List String) (id : String) :
    (storeGet (thirdStep st e) id).map nodeCore
      = (storeGet st id).map nodeCore := by
  unfold thirdStep
  cases hn : storeGet st e.1 with
  | none => rfl
  | some n =>
    rw [storeGet_cons]
    split_ifs with he
    · rw [← he, hn]
      rfl
    · rfl

theorem thirdPass_core (cm : ChildrenMap) : ∀ (st : Store) (id : String),
    (storeGet (thirdPass cm st) id).map nodeCore
      = (storeGet st id).map nodeCore := by
  induction cm with
  | nil => intro st id; rfl
  | cons e t ih =>
    intro st id
    show (storeGet (thirdPass t (thirdStep st e)) id).map nodeCore = _
    rw [ih, thirdStep_core]

theorem thirdPass_no_key (cm : ChildrenMap) : ∀ (st : Store) (p : String),
    (∀ l, (p, l) ∉ cm) → storeGet (thirdPass cm st) p = storeGet st p := by
  induction cm with
  | nil => intro st p _; rfl
  | cons e t ih =>
    intro st p h
    show storeGet (thirdPass t (thirdStep st e)) p = _
    have he : e.1 ≠ p := by
      intro hep
      exact h e.2 (by rw [← hep]; simp)
    rw [ih (thirdStep st e) p (fun l hl => h l (List.mem_cons_of_mem _ hl)),
      thirdStep_get_other st e p he]

theorem thirdPass_key (cm : ChildrenMap) : ∀ (st : Store) (p : String)
    (l : List String), (cm.map Prod.fst).Nodup → (p, l) ∈ cm →
    storeGet (thirdPass cm st) p
      = (storeGet st p).map (fun n => { n with children := l }) := by
  induction cm with
  | nil => intro st p l _ hm; exact absurd hm (List.not_mem_nil _)
  | cons e t ih =>
    intro st p l hnd hm
    show storeGet (thirdPass t (thirdStep st e)) p = _
    rcases List.mem_cons.mp hm with he | hml
    · have hep : e.1 = p := by rw [← he]
      have he2 : e.2 = l := by rw [← he]
      have hnk : ∀ l', (p, l') ∉ t := by
        intro l' hl'
        simp only [List.map_cons, List.nodup_cons] at hnd
        exact hnd.1 (hep ▸ List.mem_map.mpr ⟨(p, l'), hl', rfl⟩)
      rw [thirdPass_no_key t (thirdStep st e) p hnk]
      unfold thirdStep
      rw [hep, he2]
      cases hn : storeGet st p with
      | none => simp [hn]
      | some n => simp [hn, storeGet_cons]
    · have he : e.1 ≠ p := by
        intro hep
        simp only [List.map_cons, List.nodup_cons] at hnd
        exact hnd.1 (hep ▸ List.mem_map.mpr ⟨(p, l), hml, rfl⟩)
      rw [ih (thirdStep st e) p l
        (by simp only [List.map_cons, List.nodup_cons] at hnd; exact hnd.2) hml,
        thirdStep_get_other st e p he]

theorem processCountry_eq (cid : String) (rs : List GeoLocation) (st₀ : Store) :
    processCountry cid rs st₀
      = thirdPass (secondPass cid (buildIndex rs) rs st₀).1
          (secondPass cid (buildIndex rs) rs st₀).2 := rfl

/-- Under dot-free codes, an administrative record resolves either to the
country or to a division one level shallower. -/
theorem admParent_level (rs : List GeoLocation) (loc : GeoLocation)
    (cid p : String) (hdf : ∀ r ∈ rs, locDotFree r = true)
    (hldf : locDotFree loc = true) (hadm : isAdmDivision loc = true)
    (h : determineParentForLocation loc cid (buildIndex rs) = some p) :
    p = cid ∨ ∃ r ∈ rs, isAdmDivision r = true
      ∧ getAdminLevel r + 1 = getAdminLevel loc ∧ p = r.geonameid := by
  by_cases hpc : p = cid
  · exact Or.inl hpc
  right
  rw [show determineParentForLocation loc cid (buildIndex rs)
      = determineParent loc cid (buildIndex rs) from by
    simp [determineParentForLocation, hadm]] at h
  obtain ⟨l, hfl⟩ := isAdmDivision_exists hadm
  have hl : getAdminLevel loc = l := getAdminLevel_of_feature hfl
  have hl5 : l ≤ 5 := featureLevel_le_five hfl
  have hcases : l = 0 ∨ l = 1 ∨ (2 ≤ l ∧ l ≤ 5) := by omega
  rcases hcases with rfl | rfl | ⟨h2, h5⟩
  · simp [determineParent, hl] at h
  · simp [determineParent, hl] at h
    exact absurd h.symm hpc
  · obtain ⟨hpop, hhit⟩ := determineParent_hit loc cid _ p l hl h2 h5 h hpc
    obtain ⟨hidx, hpne⟩ := idxHit_some hhit
    obtain ⟨r, hr, hradm, hrlv, hpgeo⟩ := buildIndex_hit_level rs loc (l - 1) p
      hdf hldf (by omega) (by omega) hidx
    exact ⟨r, hr, hradm, by rw [hl, hrlv]; omega, hpgeo⟩

/-- Under dot-free codes, an ordinary record that does not resolve to the
country resolves to a division of strictly smaller level. -/
theorem ordParent_level (rs : List GeoLocation) (loc : GeoLocation)
    (cid p : String) (hdf : ∀ r ∈ rs, locDotFree r = true)
    (hldf : locDotFree loc = true) (hna : isAdmDivision loc = false)
    (h : determineParentForLocation loc cid (buildIndex rs) = some p)
    (hpc : p ≠ cid) :
    ∃ r ∈ rs, isAdmDivision r = true
      ∧ getAdminLevel r < getAdminLevel loc ∧ p = r.geonameid := by
  obtain ⟨m, hm1, hm4, hpop, hhit⟩ := resolveOrdinary_hit loc cid _ p hna h hpc
  obtain ⟨hidx, _⟩ := idxHit_some hhit
  obtain ⟨r, hr, hradm, hrlv, hpgeo⟩ := buildIndex_hit_level rs loc m p
    hdf hldf hm1 hm4 hidx
  have hgt := ordinary_level_gt loc hna m hm1 hm4 hpop
  exact ⟨r, hr, hradm, by omega, hpgeo⟩

/-- Under dot-free codes, any record that does not resolve to the country
resolves to a division of strictly smaller level. -/
theorem parent_level_lt (rs : List GeoLocation) (loc : GeoLocation)
    (cid p : String) (hdf : ∀ r ∈ rs, locDotFree r = true)
    (hldf : locDotFree loc = true)
    (h : determineParentForLocation loc cid (buildIndex rs) = some p)
    (hpc : p ≠ cid) :
    ∃ r ∈ rs, isAdmDivision r = true
      ∧ getAdminLevel r < getAdminLevel loc ∧ p = r.geonameid := by
  cases hadm : isAdmDivision loc with
  | true =>
    rcases admParent_level rs loc cid p hdf hldf hadm h with hc | ⟨r, hr, h1, h2, h3⟩
    · exact absurd hc hpc
    · exact ⟨r, hr, h1, by omega, h3⟩
  | false => exact ordParent_level rs loc cid p hdf hldf hadm h hpc

/-- A record that resolves to some parent has level at least 1. -/
theorem resolved_some_level_pos (loc : GeoLocation) (cid : String)
    (idx : AdminIndex) (p : String)
    (h : determineParentForLocation loc cid idx = some p) :
    1 ≤ getAdminLevel loc := by
  by_cases hadm : isAdmDivision loc = true
  · cases hlv : getAdminLevel loc with
    | zero => simp [determineParentForLocation, hadm, determineParent, hlv] at h
    | succ n => omega
  · have hfc := not_adm_feature_none (by simpa using hadm)
    have hcasc : getAdminLevel loc
        = if loc.admin4Code ≠ "" then 5
          else if loc.admin3Code ≠ "" then 4
          else if loc.admin2Code ≠ "" then 3
          else if loc.admin1Code ≠ "" then 2 else 1 := by
      unfold getAdminLevel
      rw [hfc]
    rw [hcasc]
    split_ifs <;> omega

theorem thirdPass_get_core (cm : ChildrenMap) (st : Store) (id : String)
    (n : Node) (h : storeGet (thirdPass cm st) id = some n) :
    ∃ n₀, storeGet st id = some n₀ ∧ nodeCore n = nodeCore n₀ := by
  have hc := thirdPass_core cm st id
  rw [h] at hc
  cases hst : storeGet st id with
  | none => rw [hst] at hc; exact absurd hc (by simp)
  | some n₀ =>
    rw [hst] at hc
    simp only [Option.map_some'] at hc
    exact ⟨n₀, rfl, Option.some.inj hc⟩

theorem findLast_mem (rs : List GeoLocation) (id : String) (r : GeoLocation)
    (h : findLastRec rs id = some r) : r ∈ rs ∧ r.geonameid = id := by
  induction rs with
  | nil => exact absurd h (by simp [findLastRec])
  | cons s u ih =>
    rw [findLast_cons] at h
    cases hu : findLastRec u id with
    | some l =>
      rw [hu] at h
      have := ih (by rw [hu, Option.some.inj h])
      exact ⟨List.mem_cons_of_mem _ this.1, this.2⟩
    | none =>
      rw [hu] at h
      split_ifs at h with hs
      have hrs := Option.some.inj h
      subst hrs
      exact ⟨List.mem_cons_self _ _, hs⟩

theorem nodeCore_level {m n : Node} (h : nodeCore m = nodeCore n) :
    m.level = n.level := by
  have hc := congrArg Node.level h
  exact hc

theorem nodeCore_parent {m n : Node} (h : nodeCore m = nodeCore n) :
    m.parent = n.parent := by
  have hc := congrArg Node.parent h
  exact hc

theorem secondPass_cm_get' (cid : String) (idx : AdminIndex)
    (rs : List GeoLocation) (st₀ : Store) (p : String) :
    cmGet (secondPass cid idx rs st₀).1 p = childIds cid idx rs p := by
  show cmGet (rs.foldl (secondStep cid idx) ([], st₀)).1 p = _
  rw [secondPass_cm_get]
  rfl

theorem secondPass_cm_nodup' (cid : String) (idx : AdminIndex)
    (rs : List GeoLocation) (st₀ : Store) :
    (((secondPass cid idx rs st₀).1).map Prod.fst).Nodup := by
  show (((rs.foldl (secondStep cid idx) ([], st₀)).1).map Prod.fst).Nodup
  exact secondPass_cm_nodup cid idx rs [] st₀ (by simp)

theorem secondPass_store_get' (cid : String) (idx : AdminIndex)
    (rs : List GeoLocation) (st₀ : Store) (id : String) :
    storeGet (secondPass cid idx rs st₀).2 id
      = match findLastRec rs id with
        | some loc => some (locationNode loc
            (determineParentForLocation loc cid idx) (getAdminLevel loc))
        | none => storeGet st₀ id := by
  show storeGet (rs.foldl (secondStep cid idx) ([], st₀)).2 id = _
  rw [secondPass_store_get]

/-- A record writes the index at key `k`: it is an administrative division
of level 1..4 with populated columns whose composite key is `k`. -/
def insertsKey (r : GeoLocation) (k : String) : Prop :=
  isAdmDivision r = true ∧ 1 ≤ getAdminLevel r ∧ getAdminLevel r ≤ 4
    ∧ chainPopulated r (getAdminLevel r) = true
    ∧ chainKey r (getAdminLevel r) = k

instance (r : GeoLocation) (k : String) : Decidable (insertsKey r k) := by
  unfold insertsKey
  infer_instance

theorem indexStep_preserve (idx : AdminIndex) (r : GeoLocation) (k : String)
    (h : ¬ insertsKey r k) : indexStep idx r k = idx k := by
  unfold indexStep
  split_ifs with hadm hb1 hb2 hb3 hb4
  · unfold insertIndex
    split_ifs with hk
    · exact absurd ⟨hadm, by omega, by omega,
        by rw [hb1.1]; simp [chainPopulated]; exact hb1.2,
        by rw [hb1.1, hk]⟩ h
    · rfl
  · unfold insertIndex
    split_ifs with hk
    · exact absurd ⟨hadm, by omega, by omega,
        by rw [hb2.1]; simp [chainPopulated]; exact ⟨hb2.2.1, hb2.2.2⟩,
        by rw [hb2.1, hk]⟩ h
    · rfl
  · unfold insertIndex
    split_ifs with hk
    · exact absurd ⟨hadm, by omega, by omega,
        by rw [hb3.1]; simp [chainPopulated]
           exact ⟨hb3.2.1, hb3.2.2.1, hb3.2.2.2⟩,
        by rw [hb3.1, hk]⟩ h
    · rfl
  · unfold insertIndex
    split_ifs with hk
    · exact absurd ⟨hadm, by omega, by omega,
        by rw [hb4.1]; simp [chainPopulated]
           exact ⟨hb4.2.1, hb4.2.2.1, hb4.2.2.2.1, hb4.2.2.2.2⟩,
        by rw [hb4.1, hk]⟩ h
    · rfl
  · rfl
  · rfl

theorem indexStep_writes (idx : AdminIndex) (r : GeoLocation) (k : String)
    (h : insertsKey r k) : indexStep idx r k = some r.geonameid := by
  rcases h with ⟨hadm, hge, hle, hpop, hkey⟩
  have hla : getAdminLevel r = 1 ∨ getAdminLevel r = 2
      ∨ getAdminLevel r = 3 ∨ getAdminLevel r = 4 := by omega
  rcases hla with hlv | hlv | hlv | hlv
  · rw [hlv] at hpop hkey
    simp only [chainPopulated, decide_eq_true_eq] at hpop
    unfold indexStep
    rw [if_pos hadm, if_pos ⟨hlv, hpop⟩]
    unfold insertIndex
    rw [if_pos hkey.symm]
  · rw [hlv] at hpop hkey
    simp only [chainPopulated, decide_eq_true_eq] at hpop
    unfold indexStep
    rw [if_pos hadm, if_neg (by simp [hlv]), if_pos ⟨hlv, hpop.1, hpop.2⟩]
    unfold insertIndex
    rw [if_pos hkey.symm]
  · rw [hlv] at hpop hkey
    simp only [chainPopulated, decide_eq_true_eq] at hpop
    unfold indexStep
    rw [if_pos hadm, if_neg (by simp [hlv]), if_neg (by simp [hlv]),
      if_pos ⟨hlv, hpop.1, hpop.2.1, hpop.2.2⟩]
    unfold insertIndex
    rw [if_pos hkey.symm]
  · rw [hlv] at hpop hkey
    simp only [chainPopulated, decide_eq_true_eq] at hpop
    unfold indexStep
    rw [if_pos hadm, if_neg (by simp [hlv]), if_neg (by simp [hlv]),
      if_neg (by simp [hlv]),
      if_pos ⟨hlv, hpop.1, hpop.2.1, hpop.2.2.1, hpop.2.2.2⟩]
    unfold insertIndex
    rw [if_pos hkey.symm]

theorem foldIndex_preserve (k : String) : ∀ (ys : List GeoLocation)
    (idx : AdminIndex), (∀ r' ∈ ys, ¬ insertsKey r' k) →
    (ys.foldl indexStep idx) k = idx k := by
  intro ys
  induction ys with
  | nil => intro idx _; rfl
  | cons s u ih =>
    intro idx h
    rw [List.foldl_cons,
      ih (indexStep idx s) (fun r' hr' => h r' (List.mem_cons_of_mem _ hr')),
      indexStep_preserve idx s k (h s (List.mem_cons_self _ _))]

/-- C6: the Level Classifier is total: each of the six recognized
administrative feature codes gets its fixed level 0..5, and any other
record is classified by the most specific populated admin-code column
(admin4 gives 5, admin3 gives 4, admin2 gives 3, admin1 gives 2, none
populated gives 1). -/
theorem C6_level_classifier_total (loc : GeoLocation) :
    (loc.featureCode = "PCLI" → getAdminLevel loc = 0)
    ∧ (loc.featureCode = "ADM1" → getAdminLevel loc = 1)
    ∧ (loc.featureCode = "ADM2" → getAdminLevel loc = 2)
    ∧ (loc.featureCode = "ADM3" → getAdminLevel loc = 3)
    ∧ (loc.featureCode = "ADM4" → getAdminLevel loc = 4)
    ∧ (loc.featureCode = "ADM5" → getAdminLevel loc = 5)
    ∧ (loc.featureCode ∉ ["PCLI", "ADM1", "ADM2", "ADM3", "ADM4", "ADM5"] →
        getAdminLevel loc
          = if loc.admin4Code ≠ "" then 5
            else if loc.admin3Code ≠ "" then 4
            else if loc.admin2Code ≠ "" then 3
            else if loc.admin1Code ≠ "" then 2 else 1) := by
  refine ⟨fun h => by simp [getAdminLevel, FEATURE_LEVELS, h],
    fun h => by simp [getAdminLevel, FEATURE_LEVELS, h],
    fun h => by simp [getAdminLevel, FEATURE_LEVELS, h],
    fun h => by simp [getAdminLevel, FEATURE_LEVELS, h],
    fun h => by simp [getAdminLevel, FEATURE_LEVELS, h],
    fun h => by simp [getAdminLevel, FEATURE_LEVELS, h], ?_⟩
  intro h
  simp only [List.mem_cons, List.not_mem_nil, or_false, not_or] at h
  obtain ⟨h1, h2, h3, h4, h5, h6⟩ := h
  simp [getAdminLevel, FEATURE_LEVELS, h1, h2, h3, h4, h5, h6]

/-- C6 witness: an `ADM2` record classifies as level 2, and a record with
an unrecognized feature code and only admin1 populated classifies as
level 2 by the column cascade. -/
theorem C6_witness :
    getAdminLevel (mkLoc "1" "a" "ADM2" "US" "CA" "06075" "" "") = 2
    ∧ getAdminLevel (mkLoc "2" "b" "PPL" "US" "CA" "" "" "") = 2 := by
  constructor
  · exact (C6_level_classifier_total
      (mkLoc "1" "a" "ADM2" "US" "CA" "06075" "" "")).2.2.1 rfl
  · have hc := (C6_level_classifier_total
      (mkLoc "2" "b" "PPL" "US" "CA" "" "" "")).2.2.2.2.2.2 (by decide)
    exact hc.trans (by decide)

/-- C4: every entry of the admin-code index comes from an
administrative-division record of level 1..4 whose admin-code columns up
to its level are populated; the key is that record's composite key with
exactly level admin segments after the country code, and the value is
that record's id.  Level-5 divisions and ordinary places never insert. -/
theorem C4_index_entries (rs : List GeoLocation) (k v : String)
    (h : buildIndex rs k = some v) :
    ∃ r ∈ rs, isAdmDivision r = true
      ∧ 1 ≤ getAdminLevel r ∧ getAdminLevel r ≤ 4
      ∧ chainPopulated r (getAdminLevel r) = true
      ∧ k = chainKey r (getAdminLevel r) ∧ v = r.geonameid :=
  buildIndex_spec rs k v h

/-- C4 witness: the index entry `US.CA → 5332921` built from a lone `ADM1`
record is explained by that record. -/
theorem C4_witness :
    ∃ r ∈ [mkLoc "5332921" "California" "ADM1" "US" "CA" "" "" ""],
      isAdmDivision r = true
      ∧ 1 ≤ getAdminLevel r ∧ getAdminLevel r ≤ 4
      ∧ chainPopulated r (getAdminLevel r) = true
      ∧ "US.CA" = chainKey r (getAdminLevel r) ∧ "5332921" = r.geonameid :=
  C4_index_entries [mkLoc "5332921" "California" "ADM1" "US" "CA" "" "" ""]
    "US.CA" "5332921" (by decide)

/-- C2: for a record with an unrecognized feature code, the resolver tries
the populated admin-code chains from 4 segments down to 1 and returns the
id stored in the index for the first chain whose key is present; when no
populated chain hits, or no admin codes are populated, it returns the
country id.  (Index values are node ids and hence non-empty.) -/
theorem C2_ordinary_fallback_chain (loc : GeoLocation) (cid : String)
    (idx : AdminIndex) (hv : ∀ k v, idx k = some v → v ≠ "")
    (hna : isAdmDivision loc = false) :
    determineParentForLocation loc cid idx
      = some (resolveOrdinarySpec loc cid idx) :=
  resolveOrdinary_eq_spec loc cid idx hv hna

/-- C2 witness: a place record with only admin1 `CA` populated resolves via
the one-segment chain to the indexed `ADM1` division. -/
theorem C2_witness :
    determineParentForLocation (mkLoc "99" "place" "PPL" "US" "CA" "" "" "")
        "6252001"
        (buildIndex [mkLoc "5332921" "California" "ADM1" "US" "CA" "" "" ""])
      = some (resolveOrdinarySpec (mkLoc "99" "place" "PPL" "US" "CA" "" "" "")
          "6252001"
          (buildIndex [mkLoc "5332921" "California" "ADM1" "US" "CA" "" "" ""]))
    ∧ resolveOrdinarySpec (mkLoc "99" "place" "PPL" "US" "CA" "" "" "")
        "6252001"
        (buildIndex [mkLoc "5332921" "California" "ADM1" "US" "CA" "" "" ""])
      = "5332921" := by
  constructor
  · apply C2_ordinary_fallback_chain
    · intro k v h
      obtain ⟨r, hr, _, _, _, _, _, hval⟩ := buildIndex_spec _ k v h
      simp only [List.mem_singleton] at hr
      rw [hval, hr]
      decide
    · decide
  · decide

/-- C3: for an administrative-division record of level 2..5,
`determineParent` consults the index only at the key with level-minus-one
admin segments: the result depends only on the index's value at that key,
a missing entry there falls back directly to the country id (never to an
intermediate ancestor reachable by a shorter key), and a present truthy
entry with populated columns is returned as the parent. -/
theorem C3_single_lookup (loc : GeoLocation) (cid : String)
    (idx idx' : AdminIndex) (l : Nat) (hl : getAdminLevel loc = l)
    (_hadm : isAdmDivision loc = true) (h2 : 2 ≤ l) (h5 : l ≤ 5) :
    (idx (chainKey loc (l - 1)) = idx' (chainKey loc (l - 1)) →
      determineParent loc cid idx = determineParent loc cid idx')
    ∧ (idx (chainKey loc (l - 1)) = none →
      determineParent loc cid idx = some cid)
    ∧ (∀ v, idx (chainKey loc (l - 1)) = some v → v ≠ "" →
      chainPopulated loc (l - 1) = true →
      determineParent loc cid idx = some v) := by
  refine ⟨?_, ?_, ?_⟩
  · intro hagree
    rw [determineParent_char loc cid idx l hl h2 h5,
      determineParent_char loc cid idx' l hl h2 h5]
    unfold tryKey
    split_ifs with hg
    · unfold idxHit
      rw [hagree]
    · rfl
  · intro hnone
    rw [determineParent_char loc cid idx l hl h2 h5]
    unfold tryKey
    split_ifs with hg
    · unfold idxHit
      rw [hnone]
      rfl
    · rfl
  · intro v hsome hvne hpop
    rw [determineParent_char loc cid idx l hl h2 h5]
    unfold tryKey
    rw [if_pos hpop]
    unfold idxHit
    rw [hsome]
    simp [hvne]

/-- C3 witness: an `ADM2` record with a present `US.CA` entry resolves to
that entry's id through the single lookup. -/
theorem C3_witness :
    determineParent (mkLoc "5391959" "SF" "ADM2" "US" "CA" "06075" "" "")
        "6252001"
        (buildIndex [mkLoc "5332921" "California" "ADM1" "US" "CA" "" "" ""])
      = some "5332921" := by
  have hc := (C3_single_lookup
    (mkLoc "5391959" "SF" "ADM2" "US" "CA" "06075" "" "") "6252001"
    (buildIndex [mkLoc "5332921" "California" "ADM1" "US" "CA" "" "" ""])
    (buildIndex [mkLoc "5332921" "California" "ADM1" "US" "CA" "" "" ""])
    2 (by decide) (by decide) (by decide) (by decide)).2.2
  exact hc "5332921" (by decide) (by decide) (by decide)

/-- C1 counterexample: with an admin1 code containing the key separator,
an `ADM3` record (level 3) resolves to the id of an `ADM1` division
(level 1), which is neither a division of level 2 nor the country root:
the `ADM1` record with admin1 code `A.B` inserts the key `US.A.B`, which
collides with the `ADM3` record's two-segment lookup key. -/
theorem C1_counterexample :
    determineParentForLocation (mkLoc "7" "x" "ADM3" "US" "A" "B" "" "")
        "C0" (buildIndex [mkLoc "R1" "weird" "ADM1" "US" "A.B" "" "" ""])
      = some "R1"
    ∧ ("R1" : String) ≠ "C0"
    ∧ getAdminLevel (mkLoc "7" "x" "ADM3" "US" "A" "B" "" "") = 3
    ∧ ∀ r ∈ [mkLoc "R1" "weird" "ADM1" "US" "A.B" "" "" ""],
        r.geonameid = "R1" → getAdminLevel r ≠ 2 := by
  refine ⟨by decide, by decide, by decide, by decide⟩

/-- C1 (amended): provided no country or admin code contains the `.` key
separator, a record with a recognized administrative feature code that
resolves to a parent resolves either to the country root's id or to the
id of a division in the same file whose level is exactly one less than
its own (`PCLI` records, level 0, resolve to no parent at all: the
resolver returns null for them, so they are covered vacuously). -/
theorem C1_adm_parent_level (rs : List GeoLocation) (loc : GeoLocation)
    (cid p : String) (hdf : ∀ r ∈ rs, locDotFree r = true)
    (hldf : locDotFree loc = true) (hadm : isAdmDivision loc = true)
    (h : determineParentForLocation loc cid (buildIndex rs) = some p) :
    p = cid ∨ ∃ r ∈ rs, isAdmDivision r = true
      ∧ getAdminLevel r + 1 = getAdminLevel loc ∧ p = r.geonameid :=
  admParent_level rs loc cid p hdf hldf hadm h

/-- C1 witness: the spec's worked example, an `ADM2` record under an
indexed `ADM1` division. -/
theorem C1_adm_parent_level_witness :
    ("5332921" : String) = "6252001"
    ∨ ∃ r ∈ [mkLoc "5332921" "California" "ADM1" "US" "CA" "" "" ""],
        isAdmDivision r = true
        ∧ getAdminLevel r + 1
            = getAdminLevel (mkLoc "5391959" "SF" "ADM2" "US" "CA" "06075" "" "")
        ∧ ("5332921" : String) = r.geonameid :=
  C1_adm_parent_level
    [mkLoc "5332921" "California" "ADM1" "US" "CA" "" "" ""]
    (mkLoc "5391959" "SF" "ADM2" "US" "CA" "06075" "" "")
    "6252001" "5332921" (by decide) (by decide) (by decide) (by decide)

/-- C10: when two administrative-division records produce the same
composite key, the index maps that key to the id of the record occurring
later in file order (the later property assignment overwrites the
earlier), and any administrative record of level 2..5 whose lookup key is
that key resolves to the later record's id. -/
theorem C10_last_write_wins (xs ys : List GeoLocation) (r : GeoLocation)
    (k : String) (h : insertsKey r k) (hlater : ∀ r' ∈ ys, ¬ insertsKey r' k) :
    buildIndex (xs ++ r :: ys) k = some r.geonameid
    ∧ ∀ (loc : GeoLocation) (cid : String) (l : Nat), getAdminLevel loc = l →
        2 ≤ l → l ≤ 5 → chainPopulated loc (l - 1) = true →
        chainKey loc (l - 1) = k → r.geonameid ≠ "" →
        determineParent loc cid (buildIndex (xs ++ r :: ys))
          = some r.geonameid := by
  have hval : buildIndex (xs ++ r :: ys) k = some r.geonameid := by
    unfold buildIndex
    rw [List.foldl_append, List.foldl_cons,
      foldIndex_preserve k ys _ hlater, indexStep_writes _ r k h]
  refine ⟨hval, ?_⟩
  intro loc cid l hl h2 h5 hpop hkey hne
  rw [determineParent_char loc cid _ l hl h2 h5]
  unfold tryKey
  rw [if_pos hpop]
  unfold idxHit
  rw [hkey, hval]
  simp [hne]

/-- C10 witness: two `ADM1` records with the same `US.CA` key; the index
holds the later id `5999999`, and an `ADM2` record resolves to it. -/
theorem C10_witness :
    buildIndex ([mkLoc "5332921" "California" "ADM1" "US" "CA" "" "" ""]
        ++ mkLoc "5999999" "California2" "ADM1" "US" "CA" "" "" "" :: [])
        "US.CA" = some "5999999"
    ∧ determineParent (mkLoc "77" "x" "ADM2" "US" "CA" "" "" "") "C0"
        (buildIndex ([mkLoc "5332921" "California" "ADM1" "US" "CA" "" "" ""]
          ++ mkLoc "5999999" "California2" "ADM1" "US" "CA" "" "" "" :: []))
      = some "5999999" := by
  have hc := C10_last_write_wins
    [mkLoc "5332921" "California" "ADM1" "US" "CA" "" "" ""] []
    (mkLoc "5999999" "California2" "ADM1" "US" "CA" "" "" "") "US.CA"
    (by decide) (by simp)
  exact ⟨hc.1, hc.2 (mkLoc "77" "x" "ADM2" "US" "CA" "" "" "") "C0" 2
    (by decide) (by decide) (by decide) (by decide) (by decide) (by decide)⟩

/-- C8 counterexample: an archive listing a non-readme `.txt` entry before
the exact-name entry `US.txt` has its first entry consumed even though an
exact-name entry exists, contradicting the claimed priority of the
exact-name match. -/
theorem C8_counterexample :
    findDataEntry "US"
        [{ entryName := "other.txt", isDirectory := false },
         { entryName := "US.txt", isDirectory := false }]
      = some { entryName := "other.txt", isDirectory := false }
    ∧ ({ entryName := "other.txt", isDirectory := false } :
        ZipEntry).entryName ≠ "US" ++ ".txt"
    ∧ ∃ e ∈ [({ entryName := "other.txt", isDirectory := false } : ZipEntry),
        { entryName := "US.txt", isDirectory := false }],
        e.entryName = "US" ++ ".txt" := by
  refine ⟨by decide, by decide, by decide⟩

/-- C8 (amended): the consumed entry is the first entry, in archive order,
satisfying: exact name `<code>.txt`, or a non-directory `.txt` name not
containing `readme`.  An exact-name entry is consumed exactly when no
qualifying entry precedes it. -/
theorem C8_first_matching_entry (iso : String) (entries : List ZipEntry) :
    (∀ e, findDataEntry iso entries = some e → dataEntryMatch iso e = true)
    ∧ (∀ (pre post : List ZipEntry) (e : ZipEntry),
        entries = pre ++ e :: post →
        (∀ e' ∈ pre, dataEntryMatch iso e' = false) →
        dataEntryMatch iso e = true → findDataEntry iso entries = some e) := by
  constructor
  · intro e h
    exact List.find?_some h
  · intro pre post e hsplit hpre he
    subst hsplit
    unfold findDataEntry
    induction pre with
    | nil =>
      rw [List.nil_append, List.find?_cons_of_pos _ he]
    | cons a t ihp =>
      rw [List.cons_append, List.find?_cons_of_neg _
        (by simp [hpre a (List.mem_cons_self _ _)])]
      exact ihp (fun e' he' => hpre e' (List.mem_cons_of_mem _ he'))

/-- C8 witness: with the standard archive layout `readme.txt` before
`US.txt`, the exact-name entry is consumed (`readme.txt` is excluded). -/
theorem C8_witness :
    findDataEntry "US"
        [{ entryName := "readme.txt", isDirectory := false },
         { entryName := "US.txt", isDirectory := false }]
      = some { entryName := "US.txt", isDirectory := false } :=
  (C8_first_matching_entry "US"
      [{ entryName := "readme.txt", isDirectory := false },
       { entryName := "US.txt", isDirectory := false }]).2
    [{ entryName := "readme.txt", isDirectory := false }] []
    { entryName := "US.txt", isDirectory := false } rfl (by decide) (by decide)

/-- A concrete country-metadata record used by concrete instantiations. -/
def usCountry : Country :=
  { iso := "US", iso3 := "USA", isoNumeric := "840", fips := "US"
    name := "United States", capital := "Washington", area := "9629091"
    population := "310232863", continent := "NA", tld := ".us"
    currencyCode := "USD", currencyName := "Dollar", phone := "1"
    postalCodeFormat := "", postalCodeRegex := "", languages := "en-US"
    geonameid := "6252001", neighbours := "CA,MX,CU"
    equivalentFipsCode := "" }

/-- C5 counterexample: with an admin1 code containing the key separator,
an ordinary record of level 2 resolves to an `ADM2` division that also
has level 2, so the produced non-root node's level is not strictly
greater than its resolved parent's level. -/
theorem C5_counterexample :
    ∃ n np : Node,
      storeGet (processCountry "C0"
          [mkLoc "D2" "d" "ADM2" "US" "X" "Y" "" "",
           mkLoc "P1" "p" "PPL" "US" "X.Y" "" "" ""]
          [("C0", countryNode usCountry)]) "P1" = some n
      ∧ n.parent = some "D2"
      ∧ storeGet (processCountry "C0"
          [mkLoc "D2" "d" "ADM2" "US" "X" "Y" "" "",
           mkLoc "P1" "p" "PPL" "US" "X.Y" "" "" ""]
          [("C0", countryNode usCountry)]) "D2" = some np
      ∧ ¬ np.level < n.level := by
  refine ⟨{ id := "P1"
            parent := some "D2"
            children := []
            name := "p"
            level := 2
            iso := none
            iso3 := none
            capital := none
            area := none
            population := some ""
            continent := none
            languages := none
            latitude := some ""
            longitude := some "" },
    { id := "D2"
      parent := some "C0"
      children := ["P1"]
      name := "d"
      level := 2
      iso := none
      iso3 := none
      capital := none
      area := none
      population := some ""
      continent := none
      languages := none
      latitude := some ""
      longitude := some "" },
    by decide, by decide, by decide, by decide⟩

/-- C5 (amended): provided no country or admin code contains the `.` key
separator, record ids within the file are distinct, any record bearing
the country's own id is a level-0 record, and the seeded country node has
level 0, every node produced for a record of the file has level strictly
greater than the level of the node stored under its resolved parent, so
parent links strictly decrease level and terminate at the level-0 country
node. -/
theorem C5_level_strict_decrease (cid : String) (rs : List GeoLocation)
    (st₀ : Store) (n0 : Node)
    (hdf : ∀ r ∈ rs, locDotFree r = true)
    (hnd : (rs.map (fun r => r.geonameid)).Nodup)
    (hcid : ∀ r ∈ rs, r.geonameid = cid → getAdminLevel r = 0)
    (h0 : storeGet st₀ cid = some n0) (h0l : n0.level = 0) :
    ∀ loc ∈ rs, ∀ (n np : Node) (p : String),
      storeGet (processCountry cid rs st₀) loc.geonameid = some n →
      n.parent = some p →
      storeGet (processCountry cid rs st₀) p = some np →
      np.level < n.level := by
  intro loc hloc n np p hn hpar hnp
  rw [processCountry_eq] at hn hnp
  obtain ⟨n₁, hn₁, hcore⟩ := thirdPass_get_core _ _ _ _ hn
  have hsp := secondPass_store_get' cid (buildIndex rs) rs st₀ loc.geonameid
  rw [findLast_of_nodup rs loc hnd hloc, hn₁] at hsp
  have hn₁eq : n₁ = locationNode loc
      (determineParentForLocation loc cid (buildIndex rs))
      (getAdminLevel loc) := Option.some.inj hsp
  have hnlv : n.level = getAdminLevel loc := by
    rw [nodeCore_level hcore, hn₁eq]
    rfl
  have hnpar : n.parent
      = determineParentForLocation loc cid (buildIndex rs) := by
    rw [nodeCore_parent hcore, hn₁eq]
    rfl
  have hres : determineParentForLocation loc cid (buildIndex rs) = some p := by
    rw [← hnpar]
    exact hpar
  have hlv1 : 1 ≤ getAdminLevel loc := resolved_some_level_pos loc cid _ p hres
  obtain ⟨np₁, hnp₁, hcorep⟩ := thirdPass_get_core _ _ _ _ hnp
  have hspp := secondPass_store_get' cid (buildIndex rs) rs st₀ p
  by_cases hpcid : p = cid
  · cases hfl : findLastRec rs p with
    | none =>
      rw [hfl, hnp₁, hpcid, h0] at hspp
      have hnp₁eq : np₁ = n0 := Option.some.inj hspp
      rw [nodeCore_level hcorep, hnp₁eq, h0l, hnlv]
      omega
    | some rloc =>
      rw [hfl, hnp₁] at hspp
      have hmem := findLast_mem rs p rloc hfl
      have hlv0 : getAdminLevel rloc = 0 :=
        hcid rloc hmem.1 (hmem.2.trans hpcid)
      have hnp₁eq : np₁ = locationNode rloc
          (determineParentForLocation rloc cid (buildIndex rs))
          (getAdminLevel rloc) := Option.some.inj hspp
      have hnplv : np.level = 0 := by
        rw [nodeCore_level hcorep, hnp₁eq]
        simp [locationNode, hlv0]
      rw [hnplv, hnlv]
      omega
  · obtain ⟨rp, hrp, _, hrplt, hpgeo⟩ :=
      parent_level_lt rs loc cid p hdf (hdf loc hloc) hres hpcid
    rw [hpgeo] at hspp hnp₁
    rw [findLast_of_nodup rs rp hnd hrp, hnp₁] at hspp
    have hnp₁eq : np₁ = locationNode rp
        (determineParentForLocation rp cid (buildIndex rs))
        (getAdminLevel rp) := Option.some.inj hspp
    have hnplv : np.level = getAdminLevel rp := by
      rw [nodeCore_level hcorep, hnp₁eq]
      rfl
    rw [hnplv, hnlv]
    exact hrplt

/-- C5 witness: an `ADM1` record under a seeded country root gives a node
of level 1 whose stored parent, the country node, has level 0. -/
theorem C5_witness :
    ∃ n np : Node,
      storeGet (processCountry "6252001"
          [mkLoc "5332921" "California" "ADM1" "US" "CA" "" "" ""]
          [("6252001", countryNode usCountry)]) "5332921" = some n
      ∧ n.parent = some "6252001"
      ∧ storeGet (processCountry "6252001"
          [mkLoc "5332921" "California" "ADM1" "US" "CA" "" "" ""]
          [("6252001", countryNode usCountry)]) "6252001" = some np
      ∧ np.level < n.level := by
  refine ⟨{ id := "5332921"
            parent := some "6252001"
            children := []
            name := "California"
            level := 1
            iso := none
            iso3 := none
            capital := none
            area := none
            population := some ""
            continent := none
            languages := none
            latitude := some ""
            longitude := some "" },
    { id := "6252001"
      parent := none
      children := ["5332921"]
      name := "United States"
      level := 0
      iso := some "US"
      iso3 := some "USA"
      capital := some "Washington"
      area := some "9629091"
      population := some "310232863"
      continent := some "NA"
      languages := some "en-US"
      latitude := none
      longitude := none },
    by decide, by decide, by decide, ?_⟩
  exact C5_level_strict_decrease "6252001"
    [mkLoc "5332921" "California" "ADM1" "US" "CA" "" "" ""]
    [("6252001", countryNode usCountry)] (countryNode usCountry)
    (by decide) (by decide) (by decide) (by decide) (by decide)
    (mkLoc "5332921" "California" "ADM1" "US" "CA" "" "" "") (by decide)
    _ _ "6252001" (by decide) (by decide) (by decide)

/-- C7: for every id that is the truthy resolved parent of some record, the
children list finally stored on that node is exactly the ids of the
records resolved to it, in record-encounter order, with no deduplication
and no sorting. -/
theorem C7_children_exact (cid : String) (rs : List GeoLocation)
    (st₀ : Store) (p : String) (n : Node)
    (hex : ∃ loc ∈ rs, truthyParent cid (buildIndex rs) loc = some p)
    (hget : storeGet (processCountry cid rs st₀) p = some n) :
    n.children = childIds cid (buildIndex rs) rs p := by
  rw [processCountry_eq] at hget
  have hcm : cmGet (secondPass cid (buildIndex rs) rs st₀).1 p
      = childIds cid (buildIndex rs) rs p :=
    secondPass_cm_get' cid (buildIndex rs) rs st₀ p
  have hne : childIds cid (buildIndex rs) rs p ≠ [] := by
    obtain ⟨loc, hloc, hp⟩ := hex
    intro hnil
    unfold childIds at hnil
    rw [List.map_eq_nil_iff] at hnil
    have hm : loc ∈ rs.filter
        (fun loc => truthyParent cid (buildIndex rs) loc = some p) :=
      List.mem_filter.mpr ⟨hloc, by simp [hp]⟩
    rw [hnil] at hm
    exact List.not_mem_nil loc hm
  have hmem : (p, childIds cid (buildIndex rs) rs p)
      ∈ (secondPass cid (buildIndex rs) rs st₀).1 := by
    have hc := cmGet_mem (secondPass cid (buildIndex rs) rs st₀).1 p
      (by rw [hcm]; exact hne)
    rwa [hcm] at hc
  rw [thirdPass_key _ _ p _ (secondPass_cm_nodup' cid (buildIndex rs) rs st₀)
    hmem] at hget
  cases hst : storeGet (secondPass cid (buildIndex rs) rs st₀).2 p with
  | none => rw [hst] at hget; exact absurd hget (by simp)
  | some n₀ =>
    rw [hst] at hget
    simp only [Option.map_some'] at hget
    have hn := Option.some.inj hget
    rw [← hn]

/-- C7 witness: a place record occurring on two source lines appears twice
in its parent's stored children, in encounter order. -/
theorem C7_witness :
    ({ id := "5332921"
       parent := some "6252001"
       children := ["5391959", "5391959"]
       name := "California"
       level := 1
       iso := none
       iso3 := none
       capital := none
       area := none
       population := some ""
       continent := none
       languages := none
       latitude := some ""
       longitude := some "" } : Node).children
      = childIds "6252001"
          (buildIndex [mkLoc "5332921" "California" "ADM1" "US" "CA" "" "" "",
            mkLoc "5391959" "SF" "PPL" "US" "CA" "" "" "",
            mkLoc "5391959" "SF" "PPL" "US" "CA" "" "" ""])
          [mkLoc "5332921" "California" "ADM1" "US" "CA" "" "" "",
            mkLoc "5391959" "SF" "PPL" "US" "CA" "" "" "",
            mkLoc "5391959" "SF" "PPL" "US" "CA" "" "" ""] "5332921"
    ∧ childIds "6252001"
        (buildIndex [mkLoc "5332921" "California" "ADM1" "US" "CA" "" "" "",
          mkLoc "5391959" "SF" "PPL" "US" "CA" "" "" "",
          mkLoc "5391959" "SF" "PPL" "US" "CA" "" "" ""])
        [mkLoc "5332921" "California" "ADM1" "US" "CA" "" "" "",
          mkLoc "5391959" "SF" "PPL" "US" "CA" "" "" "",
          mkLoc "5391959" "SF" "PPL" "US" "CA" "" "" ""] "5332921"
      = ["5391959", "5391959"] := by
  constructor
  · exact C7_children_exact "6252001"
      [mkLoc "5332921" "California" "ADM1" "US" "CA" "" "" "",
        mkLoc "5391959" "SF" "PPL" "US" "CA" "" "" "",
        mkLoc "5391959" "SF" "PPL" "US" "CA" "" "" ""]
      [("6252001", countryNode usCountry)] "5332921" _
      ⟨mkLoc "5391959" "SF" "PPL" "US" "CA" "" "" "", by decide, by decide⟩
      (by decide)
  · decide

/-- C9: the claim fails on the code: when the country's data file contains
a record bearing the country's own geonameid (as every real dump does,
via the country's own `PCLI` row), the second pass rewrites the country's
node file as a location node, erasing the iso, iso3, capital, area,
population, continent and languages attributes written by
`createCountryFiles`; the code's own header comment promises the country
file keeps all the country info. -/
theorem C9_country_node_overwritten :
    storeGet [(("6252001" : String), countryNode usCountry)] "6252001"
        = some (countryNode usCountry)
    ∧ (countryNode usCountry).iso = some "US"
    ∧ (countryNode usCountry).capital = some "Washington"
    ∧ storeGet (processCountry "6252001"
          [mkLoc "6252001" "United States" "PCLI" "US" "" "" "" ""]
          [("6252001", countryNode usCountry)]) "6252001"
        = some (locationNode
            (mkLoc "6252001" "United States" "PCLI" "US" "" "" "" "")
            none 0)
    ∧ (locationNode (mkLoc "6252001" "United States" "PCLI" "US" "" "" "" "")
        none 0).iso = none
    ∧ (locationNode (mkLoc "6252001" "United States" "PCLI" "US" "" "" "" "")
        none 0).capital = none := by
  refine ⟨by decide, by decide, by decide, by decide, by decide, by decide⟩

end Geo
